import Mathlib

/-!
Verification of the Standard Celeration Chart dashboard (src/app.js).

This file shallowly embeds the data-to-visual pipeline of the dashboard:
the logarithmic value-to-pixel coordinate mapping (`valueToY`, `yToValue`),
series extraction (`getDataPoints`), day-normalization and zoom clipping
(`normalizePoints`, `visiblePoints`), the polyline / marker / trend-line
draw-op composition (`connectOps`, `markerOps`, `celerationOp`,
`drawCelerationLine`), the log-linear regression (`calculateCeleration`),
result formatting (`formatCeleration`), the zoom configuration lookup
(`getZoomConfig`) and the nearest-point hit test (`handleMouseMove`).

Modelling conventions:
* JavaScript numbers appearing in data records (days, metric values) are
  modelled as rationals; the transcendental parts (`Math.log10`,
  `Math.pow(10, _)`, `Math.sqrt`) are modelled over the reals with
  `Real.logb 10`, `Real.rpow` and `Real.sqrt`, i.e. exact real arithmetic
  stands in for IEEE doubles ("within floating tolerance" in the spec).
* The one place where the code can produce `NaN` (the regression slope
  `0/0` when the denominator `n·Σx² − (Σx)²` vanishes, which happens
  exactly when all x are equal, forcing the numerator to vanish too) is
  modelled explicitly by the `CelValue.nan` constructor.
-/

namespace SCC

/-! ## CoordinateMapper (src/app.js 762-788, CONFIG 7-14) -/

/-- `CONFIG.yMin` (src/app.js line 9). -/
def yMin : ℝ := 0.001

/-- `CONFIG.yMax` (src/app.js line 10). -/
def yMax : ℝ := 1000

/-- `valueToY(value, chartHeight)` (src/app.js 762-776): clamp the value into
`[yMin, yMax]`, take `log10`, normalize into `[0,1]` and invert (0 at bottom). -/
noncomputable def valueToY (value : ℝ) (chartHeight : ℝ) : ℝ :=
  let v := max yMin (min yMax value)
  let logMin := Real.logb 10 yMin
  let logMax := Real.logb 10 yMax
  let logValue := Real.logb 10 v
  let normalized := (logValue - logMin) / (logMax - logMin)
  chartHeight * (1 - normalized)

/-- `yToValue(y, chartHeight)` (src/app.js 778-788): the inverse mapping,
with no clamping on output. -/
noncomputable def yToValue (y : ℝ) (chartHeight : ℝ) : ℝ :=
  let logMin := Real.logb 10 yMin
  let logMax := Real.logb 10 yMax
  let normalized := 1 - y / chartHeight
  let logValue := logMin + normalized * (logMax - logMin)
  (10 : ℝ) ^ logValue

/-! ## Data model (spec §3; ingestion format src/app.js 243-281, 652-686)

Days and metric values carried by the JSON records are modelled as rationals
(every finite IEEE double is rational). Optional nested fields are `Option`s;
the JS `x || 0` / `x?.y || 0` access is `Option.getD 0`. -/

/-- The `assessment.celeration` record (src/app.js 349-360, 652-686). -/
structure Celeration where
  calendarDay : ℚ
  correctPerMinute : Option ℚ
  errorsPerMinute : Option ℚ
  countingTimeMin : ℚ
  deriving DecidableEq

/-- The `assessment.performance` record. -/
structure Performance where
  wpm : Option ℚ
  accuracy : Option ℚ
  deriving DecidableEq

/-- The `assessment.prosody` record. -/
structure Prosody where
  score : Option ℚ
  deriving DecidableEq

/-- One assessment record (spec §3). All nested records optional. -/
structure Assessment where
  celeration : Option Celeration
  performance : Option Performance
  prosody : Option Prosody
  deriving DecidableEq

/-- The metric identifiers (closed enum, spec §6). -/
inductive Metric where
  | correctPerMinute
  | errorsPerMinute
  | wpm
  | accuracy
  | prosody
  deriving DecidableEq

/-- A derived series point `{day, value, countingTimeMin}` (src/app.js 677-683). -/
structure DataPoint where
  day : ℚ
  value : ℚ
  countingTimeMin : ℚ
  deriving DecidableEq

/-- The `switch(metric)` in `getDataPoints` (src/app.js 656-675): the metric
value of an assessment whose `celeration` field is present (`c`).
`a.performance?.wpm || 0` is `getD 0`; prosody is rescaled by 20. -/
def metricValue (metric : Metric) (a : Assessment) (c : Celeration) : ℚ :=
  match metric with
  | .correctPerMinute => c.correctPerMinute.getD 0
  | .errorsPerMinute => c.errorsPerMinute.getD 0
  | .wpm => (a.performance.bind Performance.wpm).getD 0
  | .accuracy => (a.performance.bind Performance.accuracy).getD 0
  | .prosody => (a.prosody.bind Prosody.score).getD 0 * 20

/-- The pre-sort part of `getDataPoints` (src/app.js 653-684):
`.filter(a => a.celeration).map(a => {...})`, fused into one `filterMap`. -/
def rawDataPoints (assessments : List Assessment) (metric : Metric) : List DataPoint :=
  assessments.filterMap fun a =>
    a.celeration.map fun c =>
      { day := c.calendarDay
        value := metricValue metric a c
        countingTimeMin := c.countingTimeMin }

/-- The comparator `(a, b) => a.day - b.day` (src/app.js 685): ascending by day. -/
def dayLE (p q : DataPoint) : Bool := p.day ≤ q.day

/-- `getDataPoints(student, metric)` (src/app.js 652-686). JavaScript
`Array.prototype.sort` is required (ES2019) to be stable and here sorts
ascending by `day`; it is modelled by the stable `List.mergeSort`. -/
def getDataPoints (assessments : List Assessment) (metric : Metric) : List DataPoint :=
  (rawDataPoints assessments metric).mergeSort dayLE

/-! ## Day normalization and zoom clipping (src/app.js 569-579) -/

/-- A day-normalized series point (src/app.js 573-576). -/
structure NPoint where
  day : ℚ
  value : ℚ
  countingTimeMin : ℚ
  normalizedDay : ℚ
  deriving DecidableEq

/-- `Math.min(...dataPoints.map(p => p.day))` (src/app.js 570), with the
JS guard value 0 on the empty list (`handleMouseMove`, src/app.js 854;
`drawDataSeries` never reaches this on an empty list). -/
def seriesMinDay (dataPoints : List DataPoint) : ℚ :=
  ((dataPoints.map DataPoint.day).min?).getD 0

/-- `normalizedPoints` (src/app.js 573-576): shift every point by the
minimum day of the whole extracted series. -/
def normalizePoints (dataPoints : List DataPoint) : List NPoint :=
  dataPoints.map fun p =>
    { day := p.day
      value := p.value
      countingTimeMin := p.countingTimeMin
      normalizedDay := p.day - seriesMinDay dataPoints }

/-- `visiblePoints` (src/app.js 579): clip to the zoom window
(`normalizedDay <= xMax`; no lower-bound exclusion). -/
def visiblePoints (dataPoints : List DataPoint) (xMax : ℚ) : List NPoint :=
  (normalizePoints dataPoints).filter fun p => p.normalizedDay ≤ xMax

/-! ## Zoom configuration (src/app.js 27-32, 211-213, 431-437) -/

/-- One entry of `CONFIG.zoomLevels` (src/app.js 27-32). -/
structure ZoomConfig where
  label : String
  days : ℕ
  weekInterval : ℕ
  dayInterval : ℕ
  deriving DecidableEq

/-- `CONFIG.zoomLevels` (src/app.js 27-32) as a partial lookup keyed by day span. -/
def zoomLevels (z : ℕ) : Option ZoomConfig :=
  if z = 7 then some ⟨"1 Week", 7, 1, 1⟩
  else if z = 30 then some ⟨"1 Month", 30, 1, 7⟩
  else if z = 90 then some ⟨"3 Months", 90, 2, 14⟩
  else if z = 140 then some ⟨"Full", 140, 4, 14⟩
  else none

/-- `getZoomConfig()` (src/app.js 211-213):
`CONFIG.zoomLevels[state.zoom] || CONFIG.zoomLevels[140]`. -/
def getZoomConfig (zoom : ℕ) : ZoomConfig :=
  (zoomLevels zoom).getD ⟨"Full", 140, 4, 14⟩

/-- `drawChart` (src/app.js 437): `const xMax = state.zoom` — the visible data
span is the raw requested zoom value, not the fallback's `days`. The same raw
value is used in `handleMouseMove` (src/app.js 836). -/
def drawChartXMax (zoom : ℕ) : ℕ := zoom

/-! ## Draw-op composition for one series (src/app.js 582-650)

Path commands and markers are recorded at the day/value level. The source
passes the pixel position `((normalizedDay/xMax)·width, valueToY(value,
height))` of the carried point to the canvas; both pixel maps are strictly
monotone (hence injective) in their argument, so the command list below
determines the drawn geometry. -/

/-- A `ctx.moveTo`/`ctx.lineTo` command of the connecting polyline
(src/app.js 595-599). -/
inductive PathCmd where
  | moveTo (p : NPoint)
  | lineTo (p : NPoint)
  deriving DecidableEq

/-- The `visiblePoints.forEach` loop of `connectPoints` (src/app.js 588-601):
a point with `value <= 0` is skipped (`return`); the first kept point issues
`moveTo` (`started` still false), every later kept point issues `lineTo`.
The `started` flag is never reset, so the subpath is never broken. -/
def connectLoop (started : Bool) : List NPoint → List PathCmd
  | [] => []
  | p :: rest =>
    if p.value ≤ 0 then connectLoop started rest
    else if started then PathCmd.lineTo p :: connectLoop true rest
    else PathCmd.moveTo p :: connectLoop true rest

/-- The `connectPoints` gate (src/app.js 582): draw the polyline only when the
option is on and more than one point is visible. -/
def connectOps (connectPts : Bool) (visPts : List NPoint) : List PathCmd :=
  if connectPts ∧ visPts.length > 1 then connectLoop false visPts else []

/-- A single unbroken polyline: `moveTo` the first point, `lineTo` the rest. -/
def polylineOf : List NPoint → List PathCmd
  | [] => []
  | p :: rest => PathCmd.moveTo p :: rest.map PathCmd.lineTo

/-- One data-point marker (src/app.js 621-627). -/
inductive Marker where
  | xMark (p : NPoint)
  | question (p : NPoint)
  | dot (p : NPoint)
  deriving DecidableEq

/-- Marker shape dispatch (src/app.js 621-627): "X" for the errors metric,
"?" for a value of exactly 0 on any other metric, a dot otherwise. -/
def markerFor (metric : Metric) (p : NPoint) : Marker :=
  if metric = Metric.errorsPerMinute then Marker.xMark p
  else if p.value = 0 then Marker.question p
  else Marker.dot p

/-- The `showDataPoints` gate (src/app.js 616-629): one marker per visible
point. -/
def markerOps (showDataPoints : Bool) (metric : Metric) (visPts : List NPoint) :
    List Marker :=
  if showDataPoints then visPts.map (markerFor metric) else []

/-- Marker vertical placement (src/app.js 619): a non-positive value is
plotted at the sentinel 0.0005 near the axis floor before `valueToY`. -/
def markerPlotValue (p : NPoint) : ℚ := if 0 < p.value then p.value else 0.0005

/-! ## Log-linear regression (src/app.js 719-733 and 791-816)

The `reduce((sum, p) => sum + …, 0)` accumulators are list sums. -/

/-- `sumX` (src/app.js 727 / 805). -/
def sumX (l : List (ℝ × ℝ)) : ℝ := (l.map fun p => p.1).sum

/-- `sumY` (src/app.js 728 / 806). -/
def sumY (l : List (ℝ × ℝ)) : ℝ := (l.map fun p => p.2).sum

/-- `sumXY` (src/app.js 729 / 807). -/
def sumXY (l : List (ℝ × ℝ)) : ℝ := (l.map fun p => p.1 * p.2).sum

/-- `sumX2` (src/app.js 730 / 808). -/
def sumX2 (l : List (ℝ × ℝ)) : ℝ := (l.map fun p => p.1 * p.1).sum

/-- The OLS denominator `n·Σx² − (Σx)²` (src/app.js 732 / 810). -/
def fitDenom (l : List (ℝ × ℝ)) : ℝ := l.length * sumX2 l - sumX l * sumX l

/-- The OLS numerator `n·Σxy − Σx·Σy` (src/app.js 732 / 810). -/
def fitNumer (l : List (ℝ × ℝ)) : ℝ := l.length * sumXY l - sumX l * sumY l

/-- `slope = (n·Σxy − Σx·Σy) / (n·Σx² − (Σx)²)` (src/app.js 732 / 810). -/
noncomputable def fitSlope (l : List (ℝ × ℝ)) : ℝ := fitNumer l / fitDenom l

/-- `intercept = (Σy − slope·Σx) / n` (src/app.js 733). -/
noncomputable def fitIntercept (l : List (ℝ × ℝ)) : ℝ :=
  (sumY l - fitSlope l * sumX l) / l.length

/-- The log points of `drawCelerationLine` (src/app.js 721-724): `x` is the
*normalized* day, `y = log10(value)`. -/
noncomputable def toLogPointsN (points : List NPoint) : List (ℝ × ℝ) :=
  points.map fun p => ((p.normalizedDay : ℝ), Real.logb 10 (p.value : ℝ))

/-- The log points of `calculateCeleration` (src/app.js 799-802): `x` is the
*raw* calendar day, `y = log10(value)`. -/
noncomputable def toLogPoints (validPoints : List DataPoint) : List (ℝ × ℝ) :=
  validPoints.map fun p => ((p.day : ℝ), Real.logb 10 (p.value : ℝ))

/-- The trend segment drawn by `drawCelerationLine` (src/app.js 741-754), in
day coordinates with back-transformed endpoint values; the source then maps
`startX/endX` by the linear x-pixel map and `startY/endY` by `valueToY`. -/
structure Segment where
  startX : ℚ
  endX : ℚ
  startY : ℝ
  endY : ℝ

/-- `drawCelerationLine(points, xMax)` (src/app.js 719-759). The caller
guarantees `points.length >= 2`, so the `Math.min`/`Math.max` spreads are over
nonempty lists (the `getD 0` default is never taken there). When `fitDenom`
is 0 (all points on one day) the JS slope is `0/0 = NaN` and the segment is
drawn nowhere; Lean's total division yields 0 there instead — no claim about
the segment depends on that degenerate case. -/
noncomputable def drawCelerationLine (points : List NPoint) (xMax : ℚ) : Segment :=
  let lp := toLogPointsN points
  let slope := fitSlope lp
  let intercept := fitIntercept lp
  let minX := ((points.map NPoint.normalizedDay).min?).getD 0
  let maxX := ((points.map NPoint.normalizedDay).max?).getD 0
  let extendDays := min 3 (xMax * 0.1)
  let startX := max 0 (minX - extendDays)
  let endX := min xMax (maxX + extendDays)
  { startX := startX
    endX := endX
    startY := (10 : ℝ) ^ (fitIntercept lp + fitSlope lp * (startX : ℝ))
    endY := (10 : ℝ) ^ (intercept + slope * (endX : ℝ)) }

/-- The `showCelerationLines` gate (src/app.js 607-613): fit and draw the
trend only when at least 2 points are visible and at least 2 of those have
positive value. -/
noncomputable def celerationOp (showCel : Bool) (visPts : List NPoint) (xMax : ℚ) :
    Option Segment :=
  if showCel ∧ 2 ≤ visPts.length then
    if 2 ≤ (visPts.filter fun p => 0 < p.value).length then
      some (drawCelerationLine (visPts.filter fun p => 0 < p.value) xMax)
    else none
  else none

/-- The result of `calculateCeleration`: a finite number, or the JS `NaN`. -/
inductive CelValue where
  | val (r : ℝ)
  | nan

/-- `calculateCeleration(dataPoints)` (src/app.js 791-816): returns 1 when
fewer than 2 points, or fewer than 2 positive-value points, are available;
otherwise fits `(day, log10 value)` and returns `10^(slope·7)`. When the
denominator `n·Σx² − (Σx)²` is 0 — which happens exactly when all x are
equal, forcing the numerator to 0 as well (Cauchy–Schwarz) — the JS slope is
`0/0 = NaN` and `10^(NaN·7) = NaN`; that outcome is `CelValue.nan`. -/
noncomputable def calculateCeleration (dataPoints : List DataPoint) : CelValue :=
  if dataPoints.length < 2 then CelValue.val 1
  else
    let validPoints := dataPoints.filter fun p => 0 < p.value
    if validPoints.length < 2 then CelValue.val 1
    else
      let logPoints := toLogPoints validPoints
      if fitDenom logPoints = 0 then CelValue.nan
      else CelValue.val ((10 : ℝ) ^ (fitSlope logPoints * 7))

/-! ## Celeration formatting (src/app.js 818-826)

`formatCeleration` receives a JS number; every finite double is a rational,
and the non-finite cases are the explicit `nan`/`posInf`/`negInf` tags. -/

/-- A JS number: finite (rational), `NaN`, or an infinity. -/
inductive JsNum where
  | num (q : ℚ)
  | nan
  | posInf
  | negInf
  deriving DecidableEq

/-- `Number.prototype.toFixed(2)` on a finite value (ES spec steps for
`f = 2`, magnitudes below 10^21): print the sign of a negative input, then
round `|q|·100` to the nearest integer, ties away from zero ("pick the larger
n"), and render with exactly two fraction digits. -/
def toFixed2 (q : ℚ) : String :=
  let s := if q < 0 then "-" else ""
  let n := (Int.floor (|q| * 100 + 1 / 2)).toNat
  s ++ toString (n / 100) ++ "." ++ (if n % 100 < 10 then "0" else "") ++
    toString (n % 100)

/-- `toFixed(2)` on a general JS number (`Infinity.toFixed(2) = "Infinity"`). -/
def jsToFixed2 : JsNum → String
  | .num q => toFixed2 q
  | .nan => "NaN"
  | .posInf => "Infinity"
  | .negInf => "-Infinity"

/-- JS `1/value` for finite `value` (`1/0 = Infinity`; ℚ has no negative
zero, so the `-0` input producing `-Infinity` is out of the modelled range). -/
def jsRecip (q : ℚ) : JsNum := if q = 0 then JsNum.posInf else JsNum.num (1 / q)

/-- `formatCeleration(value)` (src/app.js 818-826): `"N/A"` for non-finite or
`NaN` input; `"x" + value.toFixed(2)` for `value >= 1`; otherwise
`"/" + (1/value).toFixed(2)`. -/
def formatCeleration (value : JsNum) : String :=
  match value with
  | .nan => "N/A"
  | .posInf => "N/A"
  | .negInf => "N/A"
  | .num q =>
    if 1 ≤ q then "x" ++ toFixed2 q
    else "/" ++ jsToFixed2 (jsRecip q)

/-! ## HitTester (src/app.js 829-912) -/

/-- A loaded student as the hit test sees it (identity and color are
display-only). -/
structure StudentData where
  assessments : List Assessment

/-- One tooltip candidate (src/app.js 869-875): the matched student, metric
and point, together with its marker pixel position. -/
structure Candidate where
  student : StudentData
  metric : Metric
  point : DataPoint
  x : ℝ
  y : ℝ

/-- The candidate markers scanned by `handleMouseMove` (src/app.js 848-878):
for each active student in order, for each active metric in order, the
extracted points with positive value and normalized day inside the zoom
range (the two `return`-guards of the inner loop, src/app.js 857-860), at
the same pixel position `((day − minDay)/xMax·width, valueToY(value,
height))` that `drawDataSeries` uses (src/app.js 862-863 vs 592-593/618-619).
The nested `forEach` loops with a running best are modelled as this flat
candidate list folded in the same order. -/
noncomputable def candidatesFor (students : List StudentData) (metrics : List Metric)
    (chartWidth chartHeight : ℝ) (xMax : ℚ) : List Candidate :=
  students.flatMap fun s =>
    metrics.flatMap fun m =>
      ((getDataPoints s.assessments m).filter fun p =>
          0 < p.value ∧ p.day - seriesMinDay (getDataPoints s.assessments m) ≤ xMax).map
        fun p =>
          { student := s
            metric := m
            point := p
            x := ((p.day - seriesMinDay (getDataPoints s.assessments m) : ℚ) : ℝ)
                  / (xMax : ℝ) * chartWidth
            y := valueToY ((p.value : ℚ) : ℝ) chartHeight }

/-- `Math.sqrt((x − px)**2 + (y − py)**2)` (src/app.js 865). -/
noncomputable def candDist (ptr : ℝ × ℝ) (c : Candidate) : ℝ :=
  Real.sqrt ((ptr.1 - c.x) ^ 2 + (ptr.2 - c.y) ^ 2)

/-- One step of the closest-point scan (src/app.js 867-876): a strictly
closer candidate within the 20 px pick radius replaces the running best.
JS initializes `closestDist = Infinity`, so until the first hit only the
radius test matters; the pre-hit state is modelled as `none`. -/
noncomputable def considerCandidate (ptr : ℝ × ℝ) (best : Option (ℝ × Candidate))
    (c : Candidate) : Option (ℝ × Candidate) :=
  match best with
  | none => if candDist ptr c < 20 then some (candDist ptr c, c) else none
  | some (d₀, c₀) =>
      if candDist ptr c < d₀ ∧ candDist ptr c < 20 then some (candDist ptr c, c)
      else some (d₀, c₀)

/-- `handleMouseMove` (src/app.js 829-912), taking the pointer in chart-area
coordinates (the source first subtracts the fixed margins from the client
coordinates — DOM glue outside the model): `none` (tooltip hidden) when the
pointer is outside the plot area (src/app.js 839-842) or no candidate is
within the 20 px radius; otherwise the closest candidate with its
distance. -/
noncomputable def handleMouseMove (x y chartWidth chartHeight : ℝ)
    (students : List StudentData) (metrics : List Metric) (xMax : ℚ) :
    Option (ℝ × Candidate) :=
  if x < 0 ∨ chartWidth < x ∨ y < 0 ∨ chartHeight < y then none
  else (candidatesFor students metrics chartWidth chartHeight xMax).foldl
    (considerCandidate (x, y)) none

/-- The single-assessment student (day 0, 1 correct/min) used by witnesses. -/
def wStudent : StudentData := ⟨[⟨some ⟨0, some 1, none, 1⟩, none, none⟩]⟩

/-- Concrete two-assessment input (ingestion order: day 5 then day 3),
used by witnesses. -/
def wAssessments : List Assessment :=
  [⟨some ⟨5, some 2, none, 1⟩, none, none⟩,
   ⟨some ⟨3, some 4, none, 1⟩, none, none⟩]

/-! ## Theorems -/

/-- `log10(0.001) = -3`. -/
lemma logb_yMin : Real.logb 10 yMin = -3 := by
  have h : (yMin : ℝ) = (10 : ℝ) ^ ((-3 : ℤ) : ℝ) := by
    rw [Real.rpow_intCast]
    norm_num [yMin]
  rw [h, Real.logb_rpow (by norm_num) (by norm_num)]
  norm_num

/-- `log10(1000) = 3`. -/
lemma logb_yMax : Real.logb 10 yMax = 3 := by
  have h : (yMax : ℝ) = (10 : ℝ) ^ ((3 : ℤ) : ℝ) := by
    rw [Real.rpow_intCast]
    norm_num [yMax]
  rw [h, Real.logb_rpow (by norm_num) (by norm_num)]
  norm_num

/-- Evaluation form of `valueToY`: with `log10(yMin) = -3`, `log10(yMax) = 3`. -/
lemma valueToY_eq (v H : ℝ) :
    valueToY v H = H * (1 - (Real.logb 10 (max yMin (min yMax v)) + 3) / 6) := by
  unfold valueToY
  dsimp only
  rw [logb_yMin, logb_yMax]
  ring_nf

/-- Evaluation form of `yToValue`. -/
lemma yToValue_eq (y H : ℝ) :
    yToValue y H = (10 : ℝ) ^ (-3 + (1 - y / H) * 6) := by
  unfold yToValue
  dsimp only
  rw [logb_yMin, logb_yMax]
  norm_num

/-- **C4** — For every value `v` in `[yMin, yMax]` (0.001 … 1000) and every
height `H > 0`, `yToValue (valueToY v H) H = v`: the logarithmic pixel mapping
and its inverse round-trip exactly on the valid value range (real-number
idealization of "within floating tolerance"). -/
theorem C4_roundtrip (v H : ℝ) (hv₁ : yMin ≤ v) (hv₂ : v ≤ yMax) (hH : 0 < H) :
    yToValue (valueToY v H) H = v := by
  have hvpos : 0 < v := lt_of_lt_of_le (by norm_num [yMin]) hv₁
  have hclamp : max yMin (min yMax v) = v := by
    rw [min_eq_right hv₂, max_eq_right hv₁]
  have hH' : H ≠ 0 := ne_of_gt hH
  rw [valueToY_eq, yToValue_eq, hclamp]
  have hexp : (-3 : ℝ) + (1 - H * (1 - (Real.logb 10 v + 3) / 6) / H) * 6
      = Real.logb 10 v := by
    field_simp
    ring
  rw [hexp]
  exact Real.rpow_logb (by norm_num) (by norm_num) hvpos

/-- Witness for C4 at `v = 10`, `H = 100`. -/
theorem C4_roundtrip_witness : yToValue (valueToY 10 100) 100 = 10 :=
  C4_roundtrip 10 100 (by norm_num [yMin]) (by norm_num [yMax]) (by norm_num)

/-- **C10** — `valueToY` is total and safe on every real input: it clamps its
argument into `[yMin, yMax]` before taking `log10`, so for any height `H > 0`
the result is a pixel in `[0, H]`, and for any value `≤ 0` the result is
exactly `H` (the axis floor); `-∞`/`NaN` can never arise since the clamped
argument is strictly positive. -/
theorem C10_valueToY_safe (v H : ℝ) (hH : 0 < H) :
    valueToY v H ∈ Set.Icc 0 H ∧ (v ≤ 0 → valueToY v H = H) := by
  have h₁ : yMin ≤ max yMin (min yMax v) := le_max_left _ _
  have h₂ : max yMin (min yMax v) ≤ yMax :=
    max_le (by norm_num [yMin, yMax]) (min_le_left _ _)
  have hpos : (0 : ℝ) < max yMin (min yMax v) :=
    lt_of_lt_of_le (by norm_num [yMin]) h₁
  have hlog₁ : (-3 : ℝ) ≤ Real.logb 10 (max yMin (min yMax v)) := by
    rw [← logb_yMin]
    exact Real.logb_le_logb_of_le (by norm_num) (by norm_num [yMin]) h₁
  have hlog₂ : Real.logb 10 (max yMin (min yMax v)) ≤ 3 := by
    rw [← logb_yMax]
    exact Real.logb_le_logb_of_le (by norm_num) hpos h₂
  constructor
  · rw [valueToY_eq, Set.mem_Icc]
    constructor
    · nlinarith
    · nlinarith
  · intro hv
    have hmin : min yMax v = v := min_eq_right (le_trans hv (by norm_num [yMax]))
    have hmax : max yMin v = yMin := max_eq_left (le_trans hv (by norm_num [yMin]))
    rw [valueToY_eq, hmin, hmax, logb_yMin]
    ring

/-- Witness for C10 at `v = -5`, `H = 100`. -/
theorem C10_valueToY_safe_witness :
    valueToY (-5) 100 ∈ Set.Icc (0 : ℝ) 100 ∧ ((-5 : ℝ) ≤ 0 → valueToY (-5) 100 = 100) :=
  C10_valueToY_safe (-5) 100 (by norm_num)

/-! ## C5: series extraction is sorted, stable, normalized before clipping -/

lemma dayLE_trans (a b c : DataPoint) : dayLE a b → dayLE b c → dayLE a c := by
  simp only [dayLE, decide_eq_true_eq]
  exact le_trans

lemma dayLE_total (a b : DataPoint) : dayLE a b || dayLE b a := by
  simp only [dayLE]
  rcases le_total a.day b.day with h | h <;> simp [h]

lemma getDataPoints_sorted (assessments : List Assessment) (metric : Metric) :
    (getDataPoints assessments metric).Pairwise fun p q => p.day ≤ q.day := by
  have h := List.sorted_mergeSort dayLE_trans dayLE_total (rawDataPoints assessments metric)
  exact h.imp fun hab => by simpa [dayLE] using hab

/-- Stability of the extraction sort: for every day `d`, the points at day `d`
appear in `getDataPoints` in exactly their pre-sort (ingestion) order. -/
lemma getDataPoints_stable (assessments : List Assessment) (metric : Metric) (d : ℚ) :
    (getDataPoints assessments metric).filter (fun p => p.day = d)
      = (rawDataPoints assessments metric).filter (fun p => p.day = d) := by
  set l := rawDataPoints assessments metric with hl
  have hmem : ∀ p ∈ l.filter (fun p => p.day = d), p.day = d := by
    intro p hp
    simpa using (List.mem_filter.mp hp).2
  have hpair : (l.filter (fun p => p.day = d)).Pairwise (fun a b => dayLE a b) := by
    apply List.pairwise_of_forall_mem_list
    intro a ha b hb
    simp [dayLE, hmem a ha, hmem b hb]
  have hsub : List.Sublist (l.filter (fun p => p.day = d)) (l.mergeSort dayLE) :=
    List.sublist_mergeSort dayLE_trans dayLE_total hpair (List.filter_sublist l)
  have hsub2 : List.Sublist (l.filter (fun p => p.day = d))
      ((l.mergeSort dayLE).filter (fun p => p.day = d)) := by
    have h1 := hsub.filter (fun p => (p.day = d : Bool))
    rwa [List.filter_eq_self.mpr (fun a ha => decide_eq_true (hmem a ha))] at h1
  have hperm : List.Perm ((l.mergeSort dayLE).filter (fun p => p.day = d))
      (l.filter (fun p => p.day = d)) :=
    (List.mergeSort_perm l dayLE).filter _
  exact (hsub2.eq_of_length hperm.length_eq.symm).symm

/-- On a day-sorted nonempty list the head's day is `seriesMinDay`. -/
lemma seriesMinDay_cons_of_sorted (p : DataPoint) (rest : List DataPoint)
    (hs : (p :: rest).Pairwise fun a b => a.day ≤ b.day) :
    seriesMinDay (p :: rest) = p.day := by
  unfold seriesMinDay
  have hanti : Std.Antisymm (fun x₁ x₂ : ℚ => x₁ ≤ x₂) :=
    ⟨fun h₁ h₂ => le_antisymm h₁ h₂⟩
  have h : ((p :: rest).map DataPoint.day).min? = some p.day := by
    rw [List.min?_eq_some_iff (fun a => le_refl a) (fun a b => min_choice a b)
      (fun a b c => le_min_iff)]
    constructor
    · exact List.mem_map_of_mem _ (List.mem_cons_self _ _)
    · intro b hb
      rcases List.mem_map.mp hb with ⟨q, hq, rfl⟩
      rcases List.mem_cons.mp hq with rfl | hq'
      · exact le_refl _
      · exact List.rel_of_pairwise_cons hs hq'
  rw [h]
  rfl

/-- **C5** — For every student's assessment list and every metric, the
extracted series is sorted ascending by day; the sort is stable (points of
equal day keep their original order); the first-sorted point's
`normalizedDay` is 0; and `normalizedDay = day − min(day)` is computed over
the entire extracted series, so inside every zoom window `xMax` each visible
point still carries the full-series normalization (the Day-0 anchor is the
true earliest data point, independent of zoom truncation). -/
theorem C5_extraction (assessments : List Assessment) (metric : Metric) :
    ((getDataPoints assessments metric).Pairwise fun p q => p.day ≤ q.day)
    ∧ (∀ d : ℚ, (getDataPoints assessments metric).filter (fun p => p.day = d)
        = (rawDataPoints assessments metric).filter (fun p => p.day = d))
    ∧ (∀ (q : NPoint) (l' : List NPoint),
        normalizePoints (getDataPoints assessments metric) = q :: l' →
        q.normalizedDay = 0)
    ∧ (∀ (xMax : ℚ) (q : NPoint),
        q ∈ visiblePoints (getDataPoints assessments metric) xMax →
        q.normalizedDay = q.day - seriesMinDay (getDataPoints assessments metric)) := by
  refine ⟨getDataPoints_sorted assessments metric,
    fun d => getDataPoints_stable assessments metric d, ?_, ?_⟩
  · intro q l' h
    cases hgd : getDataPoints assessments metric with
    | nil =>
      rw [hgd] at h
      simp [normalizePoints] at h
    | cons p rest =>
      rw [hgd] at h
      simp only [normalizePoints, List.map_cons, List.cons.injEq] at h
      obtain ⟨hq, -⟩ := h
      have hs := getDataPoints_sorted assessments metric
      rw [hgd] at hs
      rw [← hq]
      simp [seriesMinDay_cons_of_sorted p rest hs]
  · intro xMax q hq
    simp only [visiblePoints, normalizePoints, List.mem_filter, List.mem_map] at hq
    rcases hq.1 with ⟨p, hp, rfl⟩
    rfl

/-- Evaluation of the extraction pipeline on `wAssessments`: the day-3 point
sorts in front of the day-5 point. -/
lemma wAssessments_eval :
    getDataPoints wAssessments Metric.correctPerMinute
      = [⟨3, 4, 1⟩, ⟨5, 2, 1⟩] := by
  norm_num [getDataPoints, rawDataPoints, wAssessments, metricValue,
    List.filterMap_cons, List.mergeSort, List.splitInTwo, List.splitAt,
    List.splitAt.go, List.merge, dayLE]

/-- Witness for C5 on `wAssessments`. -/
theorem C5_extraction_witness :
    ((getDataPoints wAssessments Metric.correctPerMinute).Pairwise
        fun p q => p.day ≤ q.day)
    ∧ (getDataPoints wAssessments Metric.correctPerMinute).filter
          (fun p => p.day = (3 : ℚ))
        = (rawDataPoints wAssessments Metric.correctPerMinute).filter
          (fun p => p.day = (3 : ℚ))
    ∧ (⟨3, 4, 1, 0⟩ : NPoint).normalizedDay = 0
    ∧ (⟨3, 4, 1, 0⟩ : NPoint).normalizedDay
        = (⟨3, 4, 1, 0⟩ : NPoint).day
          - seriesMinDay (getDataPoints wAssessments Metric.correctPerMinute) :=
  ⟨(C5_extraction wAssessments Metric.correctPerMinute).1,
   (C5_extraction wAssessments Metric.correctPerMinute).2.1 3,
   (C5_extraction wAssessments Metric.correctPerMinute).2.2.1 ⟨3, 4, 1, 0⟩
     [⟨5, 2, 1, 2⟩]
     (by norm_num [normalizePoints, seriesMinDay, wAssessments_eval, List.min?]),
   (C5_extraction wAssessments Metric.correctPerMinute).2.2.2 7 ⟨3, 4, 1, 0⟩
     (by norm_num [visiblePoints, normalizePoints, seriesMinDay,
       wAssessments_eval, List.min?])⟩

/-! ## C9: zoom fallback -/

/-- **C9 counterexample** — The claim says an unknown requested span falls
back to 140 days "for the zoom window governing labels, tick intervals, and
the visible data span". On the code, requesting span 50 does return the
140-day config for labels/ticks, but `drawChart` sets `xMax = state.zoom =
50`, so the visible data span is 50, not 140: a point at normalized day 100
(well inside the claimed 140-day fallback window) is clipped away. -/
theorem C9_counterexample :
    getZoomConfig 50 = ⟨"Full", 140, 4, 14⟩
    ∧ drawChartXMax 50 = 50
    ∧ (50 : ℕ) ≠ 140
    ∧ visiblePoints [⟨0, 2, 1⟩, ⟨100, 3, 1⟩] ((drawChartXMax 50 : ℕ) : ℚ)
        = [⟨0, 2, 1, 0⟩]
    ∧ (100 : ℚ) ≤ 140 := by
  refine ⟨rfl, rfl, by decide, ?_, by norm_num⟩
  norm_num [visiblePoints, normalizePoints, seriesMinDay, drawChartXMax,
    List.min?]

/-- **C9 (amended)** — Zoom identifiers form the closed set {7, 30, 90, 140};
requesting any span outside this set falls back to the largest defined span
(140) for the *label and axis-tick intervals only* (`getZoomConfig`), while
the visible data span and linear x-scale always use the requested raw span
(`drawChart`'s `xMax = state.zoom`). -/
theorem C9_amended :
    (∀ z : ℕ, z ≠ 7 → z ≠ 30 → z ≠ 90 → z ≠ 140 →
      getZoomConfig z = ⟨"Full", 140, 4, 14⟩)
    ∧ (∀ z : ℕ, drawChartXMax z = z)
    ∧ getZoomConfig 7 = ⟨"1 Week", 7, 1, 1⟩
    ∧ getZoomConfig 30 = ⟨"1 Month", 30, 1, 7⟩
    ∧ getZoomConfig 90 = ⟨"3 Months", 90, 2, 14⟩
    ∧ getZoomConfig 140 = ⟨"Full", 140, 4, 14⟩ := by
  refine ⟨?_, fun z => rfl, rfl, rfl, rfl, rfl⟩
  intro z h7 h30 h90 h140
  simp [getZoomConfig, zoomLevels, h7, h30, h90, h140]

/-- Witness for C9 (amended) at the unknown span 50. -/
theorem C9_amended_witness :
    getZoomConfig 50 = ⟨"Full", 140, 4, 14⟩ ∧ drawChartXMax 50 = 50 :=
  ⟨C9_amended.1 50 (by decide) (by decide) (by decide) (by decide),
   C9_amended.2.1 50⟩

/-! ## C7: connecting polyline and markers -/

lemma connectLoop_true (l : List NPoint) :
    connectLoop true l = (l.filter fun p => 0 < p.value).map PathCmd.lineTo := by
  induction l with
  | nil => rfl
  | cons p rest ih =>
    by_cases h : p.value ≤ 0
    · rw [connectLoop, if_pos h, ih, List.filter_cons]
      simp [not_lt.mpr h]
    · rw [connectLoop, if_neg h, if_pos rfl, ih, List.filter_cons]
      simp [lt_of_not_le h]

lemma connectLoop_false (l : List NPoint) :
    connectLoop false l = polylineOf (l.filter fun p => 0 < p.value) := by
  induction l with
  | nil => rfl
  | cons p rest ih =>
    by_cases h : p.value ≤ 0
    · rw [connectLoop, if_pos h, ih, List.filter_cons]
      simp [not_lt.mpr h]
    · rw [connectLoop, if_neg h]
      simp only [Bool.false_eq_true, if_false]
      rw [connectLoop_true, List.filter_cons]
      simp [lt_of_not_le h, polylineOf]

/-- **C7 counterexample** — The claim says a visible point with `value ≤ 0`
"breaks line continuity (the line is not drawn through or across it)". On the
code, with visible points at normalized days 0, 1, 2 and values 2, 0, 4, the
recorded path is a single unbroken subpath `moveTo(day 0); lineTo(day 2)`:
the day-1 zero point does not start a new subpath, and the one drawn segment
spans from day 0 to day 2 — horizontally across the skipped day-1 position
(the x-pixel map is strictly monotone in the day, and 0 < 1 < 2). -/
theorem C7_counterexample :
    connectOps true [⟨0, 2, 1, 0⟩, ⟨1, 0, 1, 1⟩, ⟨2, 4, 1, 2⟩]
      = [PathCmd.moveTo ⟨0, 2, 1, 0⟩, PathCmd.lineTo ⟨2, 4, 1, 2⟩]
    ∧ ((0 : ℚ) < 1 ∧ (1 : ℚ) < 2) := by
  exact ⟨by decide, by norm_num⟩

/-- **C7 (amended)** — When `connectPoints` is on and more than one point is
visible, the polyline passes exactly through the visible points with
`value > 0`, in order, as one unbroken subpath (`moveTo` the first positive
point, `lineTo` each later one): a point with `value ≤ 0` is skipped — it is
not treated as zero height, but it does **not** break continuity; the
polyline connects its positive neighbours directly across the gap. When
`showDataPoints` is also on, a zero-value point of a non-error metric is
still rendered as a "?" marker. -/
theorem C7_amended (visPts : List NPoint) :
    (visPts.length > 1 →
      connectOps true visPts = polylineOf (visPts.filter fun p => 0 < p.value))
    ∧ (∀ p ∈ visPts, p.value = 0 →
        Marker.question p ∈ markerOps true Metric.correctPerMinute visPts) := by
  constructor
  · intro hlen
    rw [connectOps, if_pos ⟨rfl, hlen⟩, connectLoop_false]
  · intro p hp hv
    rw [markerOps, if_pos rfl]
    refine List.mem_map.mpr ⟨p, hp, ?_⟩
    rw [markerFor, if_neg (by decide), if_pos hv]

/-- Witness for C7 (amended) on the day-0/1/2 series with values 2, 0, 4. -/
theorem C7_amended_witness :
    connectOps true [⟨0, 2, 1, 0⟩, ⟨1, 0, 1, 1⟩, ⟨2, 4, 1, 2⟩]
      = polylineOf (([⟨0, 2, 1, 0⟩, ⟨1, 0, 1, 1⟩, ⟨2, 4, 1, 2⟩] :
          List NPoint).filter fun p => 0 < p.value)
    ∧ Marker.question ⟨1, 0, 1, 1⟩
        ∈ markerOps true Metric.correctPerMinute
          [⟨0, 2, 1, 0⟩, ⟨1, 0, 1, 1⟩, ⟨2, 4, 1, 2⟩] :=
  ⟨(C7_amended [⟨0, 2, 1, 0⟩, ⟨1, 0, 1, 1⟩, ⟨2, 4, 1, 2⟩]).1 (by decide),
   (C7_amended [⟨0, 2, 1, 0⟩, ⟨1, 0, 1, 1⟩, ⟨2, 4, 1, 2⟩]).2
     ⟨1, 0, 1, 1⟩ (by decide) rfl⟩

/-! ## C6: trend-line gating and span -/

/-- **C6** — The fitted trend is drawn iff `showCelerationLines` is on and at
least 2 positive-value points exist in the zoom-clipped visible subset, and
its segment spans exactly `[max(0, minX − ext), min(xMax, maxX + ext)]` with
`ext = min(3, xMax·0.1)` over the positive visible points; `endX ≤ xMax` (the
segment never extends past the zoom window), and both endpoints are
back-transformed via `10^(intercept + slope·x)` before coordinate mapping. -/
theorem C6_celeration_line (showCel : Bool) (visPts : List NPoint) (xMax : ℚ) :
    ((celerationOp showCel visPts xMax).isSome ↔
      showCel = true ∧ 2 ≤ (visPts.filter fun p => 0 < p.value).length)
    ∧ (∀ s : Segment, celerationOp showCel visPts xMax = some s →
        s.startX = max 0 ((((visPts.filter fun p => 0 < p.value).map
            NPoint.normalizedDay).min?).getD 0 - min 3 (xMax * 0.1))
        ∧ s.endX = min xMax ((((visPts.filter fun p => 0 < p.value).map
            NPoint.normalizedDay).max?).getD 0 + min 3 (xMax * 0.1))
        ∧ s.endX ≤ xMax
        ∧ s.startY = (10 : ℝ) ^
            (fitIntercept (toLogPointsN (visPts.filter fun p => 0 < p.value))
              + fitSlope (toLogPointsN (visPts.filter fun p => 0 < p.value))
                * (s.startX : ℝ))
        ∧ s.endY = (10 : ℝ) ^
            (fitIntercept (toLogPointsN (visPts.filter fun p => 0 < p.value))
              + fitSlope (toLogPointsN (visPts.filter fun p => 0 < p.value))
                * (s.endX : ℝ))) := by
  have hfl : (visPts.filter fun p => 0 < p.value).length ≤ visPts.length :=
    List.length_filter_le _ _
  constructor
  · constructor
    · intro h
      unfold celerationOp at h
      split at h
      · rename_i hc
        split at h
        · rename_i hv
          exact ⟨hc.1, hv⟩
        · simp at h
      · simp at h
    · rintro ⟨hb, hv⟩
      unfold celerationOp
      rw [if_pos ⟨hb, le_trans hv hfl⟩, if_pos hv]
      rfl
  · intro s hsome
    unfold celerationOp at hsome
    split at hsome
    · split at hsome
      · injection hsome with hs
        subst hs
        exact ⟨rfl, rfl, min_le_left _ _, rfl, rfl⟩
      · exact absurd hsome (by simp)
    · exact absurd hsome (by simp)

/-- Witness for C6 on two positive visible points at normalized days 0 and 7
with `xMax = 7`. -/
theorem C6_celeration_line_witness :
    (celerationOp true [⟨0, 2, 1, 0⟩, ⟨7, 4, 1, 7⟩] 7).isSome
    ∧ (drawCelerationLine (([⟨0, 2, 1, 0⟩, ⟨7, 4, 1, 7⟩] :
        List NPoint).filter fun p => 0 < p.value) 7).endX ≤ 7 := by
  have h := C6_celeration_line true [⟨0, 2, 1, 0⟩, ⟨7, 4, 1, 7⟩] 7
  constructor
  · exact (h.1).mpr ⟨rfl, by decide⟩
  · exact ((h.2 (drawCelerationLine (([⟨0, 2, 1, 0⟩, ⟨7, 4, 1, 7⟩] :
      List NPoint).filter fun p => 0 < p.value) 7)
      (by unfold celerationOp; rw [if_pos ⟨rfl, by decide⟩, if_pos (by decide)])).2.2).1

/-! ## C3 and C1: the regression -/

lemma sumY_onCurve (a b : ℝ) (l : List (ℝ × ℝ)) (h : ∀ p ∈ l, p.2 = a + b * p.1) :
    sumY l = l.length * a + b * sumX l := by
  induction l with
  | nil => simp [sumY, sumX]
  | cons p rest ih =>
    have hp := h p (List.mem_cons_self _ _)
    have hr := ih fun q hq => h q (List.mem_cons_of_mem _ hq)
    simp only [sumY, sumX, List.map_cons, List.sum_cons, List.length_cons] at hp hr ⊢
    rw [hp, hr]
    push_cast
    ring

lemma sumXY_onCurve (a b : ℝ) (l : List (ℝ × ℝ)) (h : ∀ p ∈ l, p.2 = a + b * p.1) :
    sumXY l = a * sumX l + b * sumX2 l := by
  induction l with
  | nil => simp [sumXY, sumX, sumX2]
  | cons p rest ih =>
    have hp := h p (List.mem_cons_self _ _)
    have hr := ih fun q hq => h q (List.mem_cons_of_mem _ hq)
    simp only [sumXY, sumX, sumX2, List.map_cons, List.sum_cons] at hp hr ⊢
    rw [hp, hr]
    ring

lemma fitNumer_onCurve (a b : ℝ) (l : List (ℝ × ℝ))
    (h : ∀ p ∈ l, p.2 = a + b * p.1) : fitNumer l = b * fitDenom l := by
  unfold fitNumer fitDenom
  rw [sumXY_onCurve a b l h, sumY_onCurve a b l h]
  ring

lemma length_ne_zero_of_fitDenom {l : List (ℝ × ℝ)} (hd : fitDenom l ≠ 0) :
    (l.length : ℝ) ≠ 0 := by
  intro h
  apply hd
  have hnil : l = [] := List.length_eq_zero.mp (by exact_mod_cast h)
  subst hnil
  simp [fitDenom, sumX, sumX2]

/-- Exact reproduction: OLS on points lying exactly on `y = a + b·x`
returns slope `b` and intercept `a`. -/
lemma fit_onCurve (a b : ℝ) (l : List (ℝ × ℝ))
    (h : ∀ p ∈ l, p.2 = a + b * p.1) (hd : fitDenom l ≠ 0) :
    fitSlope l = b ∧ fitIntercept l = a := by
  have hs : fitSlope l = b := by
    unfold fitSlope
    rw [fitNumer_onCurve a b l h]
    field_simp
  refine ⟨hs, ?_⟩
  unfold fitIntercept
  rw [hs, sumY_onCurve a b l h]
  have hn := length_ne_zero_of_fitDenom hd
  field_simp

/-- `Σx` of a constant-x list. -/
lemma sumX_const (c : ℝ) (l : List (ℝ × ℝ)) (h : ∀ p ∈ l, p.1 = c) :
    sumX l = l.length * c := by
  induction l with
  | nil => simp [sumX]
  | cons p rest ih =>
    have hp := h p (List.mem_cons_self _ _)
    have hr := ih fun q hq => h q (List.mem_cons_of_mem _ hq)
    simp only [sumX, List.map_cons, List.sum_cons, List.length_cons] at hp hr ⊢
    rw [hp, hr]
    push_cast
    ring

/-- `Σx²` of a constant-x list. -/
lemma sumX2_const (c : ℝ) (l : List (ℝ × ℝ)) (h : ∀ p ∈ l, p.1 = c) :
    sumX2 l = l.length * (c * c) := by
  induction l with
  | nil => simp [sumX2]
  | cons p rest ih =>
    have hp := h p (List.mem_cons_self _ _)
    have hr := ih fun q hq => h q (List.mem_cons_of_mem _ hq)
    simp only [sumX2, List.map_cons, List.sum_cons, List.length_cons] at hp hr ⊢
    rw [hp, hr]
    push_cast
    ring

/-- The OLS denominator vanishes when all x coincide. -/
lemma fitDenom_const (c : ℝ) (l : List (ℝ × ℝ)) (h : ∀ p ∈ l, p.1 = c) :
    fitDenom l = 0 := by
  unfold fitDenom
  rw [sumX_const c l h, sumX2_const c l h]
  ring

/-- **C3** — The fit computes `slope = (n·Σxy − Σx·Σy)/(n·Σx² − (Σx)²)` and
`intercept = (Σy − slope·Σx)/n` over the `(x, log10 y)` pairs, and
`calculateCeleration` reports `10^(slope·7)` (whenever ≥ 2 positive points
with non-degenerate x spread exist); points lying exactly on
`y = a + b·x` in log space reproduce slope `b` and intercept `a`; and the
scenario of assessments on days [10, 17, 24] with values [2, 4, 8] yields
weekly celeration exactly ×2.00 (the value 2). -/
theorem C3_regression :
    (∀ (l : List (ℝ × ℝ)) (a b : ℝ), (∀ p ∈ l, p.2 = a + b * p.1) →
      fitDenom l ≠ 0 → fitSlope l = b ∧ fitIntercept l = a)
    ∧ (∀ dataPoints : List DataPoint,
        2 ≤ (dataPoints.filter fun p => 0 < p.value).length →
        fitDenom (toLogPoints (dataPoints.filter fun p => 0 < p.value)) ≠ 0 →
        calculateCeleration dataPoints
          = CelValue.val ((10 : ℝ) ^
              (fitSlope (toLogPoints (dataPoints.filter fun p => 0 < p.value)) * 7)))
    ∧ calculateCeleration [⟨10, 2, 1⟩, ⟨17, 4, 1⟩, ⟨24, 8, 1⟩] = CelValue.val 2 := by
  refine ⟨fun l a b => fit_onCurve a b l, ?_, ?_⟩
  · intro dataPoints hv hd
    have hlen : 2 ≤ dataPoints.length :=
      le_trans hv (List.length_filter_le _ _)
    unfold calculateCeleration
    rw [if_neg (not_lt.mpr hlen)]
    dsimp only
    rw [if_neg (not_lt.mpr hv), if_neg hd]
  · have h4 : Real.logb 10 4 = 2 * Real.logb 10 2 := by
      rw [show (4 : ℝ) = 2 ^ (2 : ℕ) by norm_num, Real.logb_pow]
      push_cast
      ring
    have h8 : Real.logb 10 8 = 3 * Real.logb 10 2 := by
      rw [show (8 : ℝ) = 2 ^ (3 : ℕ) by norm_num, Real.logb_pow]
      push_cast
      ring
    have hfilter : (([⟨10, 2, 1⟩, ⟨17, 4, 1⟩, ⟨24, 8, 1⟩] :
        List DataPoint).filter fun p => 0 < p.value)
        = [⟨10, 2, 1⟩, ⟨17, 4, 1⟩, ⟨24, 8, 1⟩] := by decide
    unfold calculateCeleration
    rw [if_neg (by norm_num)]
    dsimp only
    rw [hfilter]
    have hexp : fitSlope (toLogPoints [⟨10, 2, 1⟩, ⟨17, 4, 1⟩, ⟨24, 8, 1⟩]) * 7
        = Real.logb 10 2 := by
      unfold fitSlope fitNumer fitDenom toLogPoints sumX sumY sumXY sumX2
      norm_num [h4, h8]
      ring_nf
    have hdenom : fitDenom (toLogPoints [⟨10, 2, 1⟩, ⟨17, 4, 1⟩, ⟨24, 8, 1⟩]) ≠ 0 := by
      unfold fitDenom toLogPoints sumX sumX2
      norm_num
    rw [if_neg (by norm_num), if_neg hdenom, hexp,
      Real.rpow_logb (by norm_num) (by norm_num) (by norm_num)]

/-- Witness for C3: the on-curve half at `l = [(0,1),(1,2)]`, `a = b = 1`
(denominator 1), and the reporting half at the two-point series
days 10, 17 / values 2, 4 (denominator 49). -/
theorem C3_regression_witness :
    (fitSlope [((0 : ℝ), (1 : ℝ)), (1, 2)] = 1
      ∧ fitIntercept [((0 : ℝ), (1 : ℝ)), (1, 2)] = 1)
    ∧ calculateCeleration [⟨10, 2, 1⟩, ⟨17, 4, 1⟩]
        = CelValue.val ((10 : ℝ) ^
            (fitSlope (toLogPoints (([⟨10, 2, 1⟩, ⟨17, 4, 1⟩] :
              List DataPoint).filter fun p => 0 < p.value)) * 7)) :=
  ⟨C3_regression.1 [((0 : ℝ), (1 : ℝ)), (1, 2)] 1 1
      (by
        intro p hp
        rcases List.mem_cons.mp hp with rfl | hp'
        · norm_num
        · rcases List.mem_cons.mp hp' with rfl | h
          · norm_num
          · simp at h)
      (by
        unfold fitDenom sumX sumX2
        norm_num),
   C3_regression.2.1 [⟨10, 2, 1⟩, ⟨17, 4, 1⟩]
      (by decide)
      (by
        have hfilter : (([⟨10, 2, 1⟩, ⟨17, 4, 1⟩] :
            List DataPoint).filter fun p => 0 < p.value)
            = [⟨10, 2, 1⟩, ⟨17, 4, 1⟩] := by decide
        rw [hfilter]
        unfold fitDenom toLogPoints sumX sumX2
        norm_num)⟩

/-- **C1 counterexample** — The claim says that with fewer than 2 positive
points the fit "returns an undefined/indeterminate (no-trend) result rather
than a numeric celeration value". On the code, `calculateCeleration` with a
single point returns the *numeric* value 1 (`return 1`, src/app.js 792/796,
rendered "x1.00"), which is not the indeterminate (`NaN`) result. -/
theorem C1_counterexample :
    calculateCeleration [⟨10, 2, 1⟩] = CelValue.val 1
    ∧ CelValue.val 1 ≠ CelValue.nan := by
  constructor
  · unfold calculateCeleration
    rw [if_pos (by norm_num)]
  · intro h
    exact CelValue.noConfusion h

/-- **C1 (amended)** — With fewer than 2 strictly-positive-value points,
`calculateCeleration` returns the *neutral numeric value 1* (rendered
"x1.00"), not an indeterminate result; when ≥ 2 positive points all share
the same day (so the denominator `n·Σx² − (Σx)²` is 0), the result is the JS
`NaN`, which `formatCeleration` renders as "N/A" — in neither case does a
caller crash. -/
theorem C1_amended (dataPoints : List DataPoint) :
    ((dataPoints.filter fun p => 0 < p.value).length < 2 →
      calculateCeleration dataPoints = CelValue.val 1)
    ∧ (2 ≤ (dataPoints.filter fun p => 0 < p.value).length →
       (∀ p ∈ dataPoints.filter fun p => 0 < p.value,
        ∀ q ∈ dataPoints.filter fun p => 0 < p.value, p.day = q.day) →
       calculateCeleration dataPoints = CelValue.nan)
    ∧ formatCeleration JsNum.nan = "N/A" := by
  refine ⟨?_, ?_, rfl⟩
  · intro hv
    unfold calculateCeleration
    by_cases hlen : dataPoints.length < 2
    · rw [if_pos hlen]
    · rw [if_neg hlen]
      dsimp only
      rw [if_pos hv]
  · intro hv hsame
    have hlen : 2 ≤ dataPoints.length :=
      le_trans hv (List.length_filter_le _ _)
    obtain ⟨p₀, hp₀⟩ : ∃ p₀, p₀ ∈ dataPoints.filter fun p => 0 < p.value := by
      rcases List.exists_mem_of_length_pos (lt_of_lt_of_le (by norm_num) hv) with ⟨p₀, h⟩
      exact ⟨p₀, h⟩
    have hdenom : fitDenom (toLogPoints (dataPoints.filter fun p => 0 < p.value)) = 0 := by
      apply fitDenom_const ((p₀.day : ℝ))
      intro pair hpair
      rcases List.mem_map.mp hpair with ⟨q, hq, rfl⟩
      show ((q.day : ℝ)) = ((p₀.day : ℝ))
      exact_mod_cast hsame q hq p₀ hp₀
    unfold calculateCeleration
    rw [if_neg (not_lt.mpr hlen)]
    dsimp only
    rw [if_neg (not_lt.mpr hv), if_pos hdenom]

/-- Witness for C1 (amended): one point (returns the numeric 1), and two
positive points on the same day 5 (returns `NaN`, rendered "N/A"). -/
theorem C1_amended_witness :
    calculateCeleration [⟨10, 2, 1⟩] = CelValue.val 1
    ∧ calculateCeleration [⟨5, 2, 1⟩, ⟨5, 4, 1⟩] = CelValue.nan
    ∧ formatCeleration JsNum.nan = "N/A" :=
  ⟨(C1_amended [⟨10, 2, 1⟩]).1 (by decide),
   (C1_amended [⟨5, 2, 1⟩, ⟨5, 4, 1⟩]).2.1 (by decide)
     (by
       intro p hp q hq
       have hp' := List.mem_filter.mp hp
       have hq' := List.mem_filter.mp hq
       rcases List.mem_cons.mp hp'.1 with rfl | hp''
       · rcases List.mem_cons.mp hq'.1 with rfl | hq''
         · rfl
         · rcases List.mem_cons.mp hq'' with rfl | h
           · rfl
           · simp at h
       · rcases List.mem_cons.mp hp'' with rfl | h
         · rcases List.mem_cons.mp hq'.1 with rfl | hq''
           · rfl
           · rcases List.mem_cons.mp hq'' with rfl | h
             · rfl
             · simp at h
         · simp at h),
   (C1_amended []).2.2⟩

/-! ## C2: celeration formatting -/

lemma toFixed2_two : toFixed2 2 = "2.00" := by
  have h : Int.floor (|(2 : ℚ)| * 100 + 1 / 2) = 200 := by norm_num
  unfold toFixed2
  rw [h]
  decide

lemma formatCeleration_two : formatCeleration (JsNum.num 2) = "x2.00" := by
  simp only [formatCeleration]
  rw [if_pos (by norm_num), toFixed2_two]
  decide

lemma formatCeleration_half : formatCeleration (JsNum.num (1 / 2)) = "/2.00" := by
  simp only [formatCeleration]
  rw [if_neg (by norm_num)]
  unfold jsRecip
  rw [if_neg (by norm_num), show (1 : ℚ) / (1 / 2) = 2 by norm_num]
  simp only [jsToFixed2]
  rw [toFixed2_two]
  decide

/-- **C2 counterexample** — The claim says `formatCeleration(2.0) = "×2.00"`
and `formatCeleration(0.5) = "÷2.00"`. On the code the prefixes are the ASCII
characters `x` and `/` (src/app.js 822/824), not the typographic `×`/`÷`:
the actual outputs are `"x2.00"` and `"/2.00"`. -/
theorem C2_counterexample :
    (formatCeleration (JsNum.num 2) = "x2.00" ∧ "x2.00" ≠ "×2.00")
    ∧ (formatCeleration (JsNum.num (1 / 2)) = "/2.00" ∧ "/2.00" ≠ "÷2.00") :=
  ⟨⟨formatCeleration_two, by decide⟩, ⟨formatCeleration_half, by decide⟩⟩

/-- **C2 (amended)** — `formatCeleration` maps 2.0 to `"x2.00"`, 0.5 to
`"/2.00"`, and any `NaN` or non-finite input to `"N/A"`; every value ≥ 1 is
rendered with the ASCII `x` prefix and the value to two decimals, every
finite nonzero value < 1 with the ASCII `/` prefix and `1/value` to two
decimals, and the value 0 as `"/Infinity"` (JS `1/0 = Infinity`). -/
theorem C2_amended :
    formatCeleration (JsNum.num 2) = "x2.00"
    ∧ formatCeleration (JsNum.num (1 / 2)) = "/2.00"
    ∧ formatCeleration JsNum.nan = "N/A"
    ∧ formatCeleration JsNum.posInf = "N/A"
    ∧ formatCeleration JsNum.negInf = "N/A"
    ∧ (∀ q : ℚ, 1 ≤ q → formatCeleration (JsNum.num q) = "x" ++ toFixed2 q)
    ∧ (∀ q : ℚ, q < 1 → q ≠ 0 →
        formatCeleration (JsNum.num q) = "/" ++ toFixed2 (1 / q))
    ∧ formatCeleration (JsNum.num 0) = "/" ++ "Infinity" := by
  refine ⟨formatCeleration_two, formatCeleration_half, rfl, rfl, rfl, ?_, ?_, ?_⟩
  · intro q hq
    simp only [formatCeleration]
    rw [if_pos hq]
  · intro q hlt hne
    simp only [formatCeleration]
    rw [if_neg (not_le.mpr hlt)]
    unfold jsRecip
    rw [if_neg hne]
    rfl
  · simp only [formatCeleration]
    rw [if_neg (by norm_num)]
    unfold jsRecip
    rw [if_pos rfl]
    rfl

/-- Witness for C2 (amended) at `q = 3` and `q = 1/4`. -/
theorem C2_amended_witness :
    formatCeleration (JsNum.num 3) = "x" ++ toFixed2 3
    ∧ formatCeleration (JsNum.num (1 / 4)) = "/" ++ toFixed2 (1 / (1 / 4)) :=
  ⟨C2_amended.2.2.2.2.2.1 3 (by norm_num),
   C2_amended.2.2.2.2.2.2.1 (1 / 4) (by norm_num) (by norm_num)⟩

/-! ## C8: the closest-point scan -/

lemma considerCandidate_none_eq (ptr : ℝ × ℝ) (c : Candidate) :
    considerCandidate ptr none c
      = if candDist ptr c < 20 then some (candDist ptr c, c) else none := rfl

lemma considerCandidate_some_eq (ptr : ℝ × ℝ) (d₀ : ℝ) (c₀ c : Candidate) :
    considerCandidate ptr (some (d₀, c₀)) c
      = if candDist ptr c < d₀ ∧ candDist ptr c < 20 then some (candDist ptr c, c)
        else some (d₀, c₀) := rfl

/-- From a `some` state the scan never returns to `none`. -/
lemma foldl_consider_some (ptr : ℝ × ℝ) (l : List Candidate) :
    ∀ s : ℝ × Candidate,
      ∃ s', l.foldl (considerCandidate ptr) (some s) = some s' := by
  induction l with
  | nil => exact fun s => ⟨s, rfl⟩
  | cons c rest ih =>
    intro s
    rcases s with ⟨d₀, c₀⟩
    rw [List.foldl_cons, considerCandidate_some_eq]
    by_cases h : candDist ptr c < d₀ ∧ candDist ptr c < 20
    · rw [if_pos h]
      exact ih _
    · rw [if_neg h]
      exact ih _

/-- The scan yields `none` iff no candidate is within the pick radius. -/
lemma foldl_consider_none_iff (ptr : ℝ × ℝ) (l : List Candidate) :
    l.foldl (considerCandidate ptr) none = none
      ↔ ∀ c ∈ l, ¬ candDist ptr c < 20 := by
  induction l with
  | nil => simp
  | cons c rest ih =>
    rw [List.foldl_cons, considerCandidate_none_eq]
    by_cases h : candDist ptr c < 20
    · rw [if_pos h]
      rcases foldl_consider_some ptr rest (candDist ptr c, c) with ⟨s', hs'⟩
      rw [hs']
      exact iff_of_false (Option.some_ne_none _)
        fun hr => hr c (List.mem_cons_self _ _) h
    · rw [if_neg h, ih]
      constructor
      · intro hr c' hc'
        rcases List.mem_cons.mp hc' with rfl | h'
        · exact h
        · exact hr c' h'
      · intro hr c' hc'
        exact hr c' (List.mem_cons_of_mem _ hc')

/-- The running best distance never increases. -/
lemma foldl_consider_mono (ptr : ℝ × ℝ) (l : List Candidate) :
    ∀ (d₀ : ℝ) (c₀ : Candidate) (d : ℝ) (c : Candidate),
      l.foldl (considerCandidate ptr) (some (d₀, c₀)) = some (d, c) →
      (d = d₀ ∧ c = c₀) ∨ d < d₀ := by
  induction l with
  | nil =>
    intro d₀ c₀ d c h
    rw [List.foldl_nil] at h
    injection h with h'
    obtain ⟨h₁, h₂⟩ := Prod.mk.injEq .. ▸ h'
    exact Or.inl ⟨h₁.symm, h₂.symm⟩
  | cons a rest ih =>
    intro d₀ c₀ d c h
    rw [List.foldl_cons, considerCandidate_some_eq] at h
    by_cases ha : candDist ptr a < d₀ ∧ candDist ptr a < 20
    · rw [if_pos ha] at h
      rcases ih _ _ _ _ h with ⟨hd, -⟩ | hlt
      · exact Or.inr (hd ▸ ha.1)
      · exact Or.inr (lt_trans hlt ha.1)
    · rw [if_neg ha] at h
      exact ih _ _ _ _ h

/-- Full characterization of a successful scan: the result is the first
candidate attaining the minimum distance among those within the radius. -/
lemma foldl_consider_spec (ptr : ℝ × ℝ) (l : List Candidate) :
    ∀ (st : Option (ℝ × Candidate)) (d : ℝ) (c : Candidate),
      l.foldl (considerCandidate ptr) st = some (d, c) →
      (st = some (d, c)
        ∧ ∀ c' ∈ l, ¬(candDist ptr c' < d ∧ candDist ptr c' < 20))
      ∨ (∃ pre post, l = pre ++ c :: post ∧ d = candDist ptr c ∧ d < 20
          ∧ (∀ c' ∈ pre, d < candDist ptr c')
          ∧ (∀ c' ∈ post, ¬(candDist ptr c' < d ∧ candDist ptr c' < 20))) := by
  induction l with
  | nil =>
    intro st d c h
    rw [List.foldl_nil] at h
    exact Or.inl ⟨h, by simp⟩
  | cons a rest ih =>
    intro st d c h
    rw [List.foldl_cons] at h
    have step_selected :
        rest.foldl (considerCandidate ptr) (some (candDist ptr a, a)) = some (d, c) →
        candDist ptr a < 20 →
        (∃ pre post, a :: rest = pre ++ c :: post ∧ d = candDist ptr c ∧ d < 20
          ∧ (∀ c' ∈ pre, d < candDist ptr c')
          ∧ (∀ c' ∈ post, ¬(candDist ptr c' < d ∧ candDist ptr c' < 20))) := by
      intro h' ha
      rcases ih _ _ _ h' with ⟨hst, hall⟩ | ⟨pre, post, hsplit, hd, hd20, hpre, hpost⟩
      · injection hst with hst'
        obtain ⟨hda, hca⟩ := Prod.mk.injEq .. ▸ hst'
        refine ⟨[], rest, by rw [List.nil_append, hca], ?_, ?_, by simp, hall⟩
        · rw [← hda, ← hca]
        · rw [← hda]
          exact ha
      · rcases foldl_consider_mono ptr rest _ _ _ _ h' with ⟨hda, hca⟩ | hlt
        · refine ⟨[], rest, by rw [List.nil_append, hca], ?_, hd20, by simp, ?_⟩
          · rw [hca]
            exact hda
          · intro c' hc'
            rw [hsplit] at hc'
            rcases List.mem_append.mp hc' with hpre' | hcp
            · intro hcontra
              exact absurd hcontra.1 (not_lt.mpr (le_of_lt (hpre c' hpre')))
            · rcases List.mem_cons.mp hcp with rfl | hpost'
              · intro hcontra
                exact absurd hcontra.1 (by rw [← hd]; exact lt_irrefl d)
              · exact hpost c' hpost'
        · refine ⟨a :: pre, post, by rw [hsplit, List.cons_append], hd, hd20, ?_, hpost⟩
          intro c' hc'
          rcases List.mem_cons.mp hc' with rfl | hpre'
          · exact hlt
          · exact hpre c' hpre'
    rcases st with _ | ⟨d₀, c₀⟩
    · rw [considerCandidate_none_eq] at h
      by_cases ha : candDist ptr a < 20
      · rw [if_pos ha] at h
        exact Or.inr (step_selected h ha)
      · rw [if_neg ha] at h
        rcases ih _ _ _ h with ⟨hst', -⟩ | ⟨pre, post, hsplit, hd, hd20, hpre, hpost⟩
        · exact absurd hst' (Option.noConfusion)
        · refine Or.inr ⟨a :: pre, post, by rw [hsplit, List.cons_append],
            hd, hd20, ?_, hpost⟩
          intro c' hc'
          rcases List.mem_cons.mp hc' with rfl | hpre'
          · exact lt_of_lt_of_le hd20 (not_lt.mp ha)
          · exact hpre c' hpre'
    · rw [considerCandidate_some_eq] at h
      by_cases hsel : candDist ptr a < d₀ ∧ candDist ptr a < 20
      · rw [if_pos hsel] at h
        exact Or.inr (step_selected h hsel.2)
      · rw [if_neg hsel] at h
        rcases ih _ _ _ h with ⟨hst', hall⟩ | ⟨pre, post, hsplit, hd, hd20, hpre, hpost⟩
        · injection hst' with hst''
          obtain ⟨hdd, hcc⟩ := Prod.mk.injEq .. ▸ hst''
          refine Or.inl ⟨by rw [hdd, hcc], ?_⟩
          intro c' hc'
          rcases List.mem_cons.mp hc' with rfl | hrest
          · rw [← hdd]
            exact hsel
          · exact hall c' hrest
        · rcases foldl_consider_mono ptr rest _ _ _ _ h with ⟨hdd, hcc⟩ | hlt
          · refine Or.inl ⟨by rw [hdd, hcc], ?_⟩
            intro c' hc'
            rcases List.mem_cons.mp hc' with rfl | hrest
            · rw [hdd]
              exact hsel
            · rw [hsplit] at hrest
              rcases List.mem_append.mp hrest with hpre' | hcp
              · intro hcontra
                exact absurd hcontra.1 (not_lt.mpr (le_of_lt (hpre c' hpre')))
              · rcases List.mem_cons.mp hcp with rfl | hpost'
                · intro hcontra
                  exact absurd hcontra.1 (by rw [← hd]; exact lt_irrefl d)
                · exact hpost c' hpost'
          · refine Or.inr ⟨a :: pre, post, by rw [hsplit, List.cons_append],
              hd, hd20, ?_, hpost⟩
            intro c' hc'
            rcases List.mem_cons.mp hc' with rfl | hpre'
            · rcases not_and_or.mp hsel with hge | hge
              · exact lt_of_lt_of_le hlt (not_lt.mp hge)
              · exact lt_of_lt_of_le hd20 (not_lt.mp hge)
            · exact hpre c' hpre'

/-- **C8** — For every pointer position, the hit test: returns `none` when
the pointer is outside the plot area; inside the plot area returns `none`
iff no candidate is within the 20 px radius; any returned candidate is at
distance < 20, of minimum distance among all candidates, and is the *first*
candidate attaining that minimum in iteration order (first student, then
first metric); a pointer at the exact pixel of a plotted point yields a hit
at distance 0; and every candidate is an extracted visible positive-value
point mapped with exactly the pixel formulas of the chart composer. -/
theorem C8_hit_test (x y chartWidth chartHeight : ℝ)
    (students : List StudentData) (metrics : List Metric) (xMax : ℚ) :
    ((x < 0 ∨ chartWidth < x ∨ y < 0 ∨ chartHeight < y) →
      handleMouseMove x y chartWidth chartHeight students metrics xMax = none)
    ∧ (¬(x < 0 ∨ chartWidth < x ∨ y < 0 ∨ chartHeight < y) →
        (handleMouseMove x y chartWidth chartHeight students metrics xMax = none ↔
          ∀ c ∈ candidatesFor students metrics chartWidth chartHeight xMax,
            (20 : ℝ) ≤ candDist (x, y) c))
    ∧ (∀ (d : ℝ) (c : Candidate),
        handleMouseMove x y chartWidth chartHeight students metrics xMax
          = some (d, c) →
        d = candDist (x, y) c ∧ d < 20
        ∧ (∀ c' ∈ candidatesFor students metrics chartWidth chartHeight xMax,
            d ≤ candDist (x, y) c')
        ∧ ∃ pre post,
            candidatesFor students metrics chartWidth chartHeight xMax
              = pre ++ c :: post
            ∧ ∀ c' ∈ pre, d < candDist (x, y) c')
    ∧ (¬(x < 0 ∨ chartWidth < x ∨ y < 0 ∨ chartHeight < y) →
        ∀ c ∈ candidatesFor students metrics chartWidth chartHeight xMax,
          c.x = x → c.y = y →
          ∃ c', handleMouseMove x y chartWidth chartHeight students metrics xMax
              = some (0, c')
            ∧ c'.x = x ∧ c'.y = y)
    ∧ (∀ c ∈ candidatesFor students metrics chartWidth chartHeight xMax,
        ∃ s ∈ students, ∃ m ∈ metrics,
          ∃ p ∈ visiblePoints (getDataPoints s.assessments m) xMax,
            0 < p.value
            ∧ c.x = ((p.normalizedDay : ℝ)) / ((xMax : ℝ)) * chartWidth
            ∧ c.y = valueToY ((p.value : ℝ)) chartHeight
            ∧ c.point.day = p.day ∧ c.point.value = p.value) := by
  have hmin : ∀ (d : ℝ) (c : Candidate),
      (candidatesFor students metrics chartWidth chartHeight xMax).foldl
        (considerCandidate (x, y)) none = some (d, c) →
      d = candDist (x, y) c ∧ d < 20
      ∧ (∀ c' ∈ candidatesFor students metrics chartWidth chartHeight xMax,
          d ≤ candDist (x, y) c')
      ∧ ∃ pre post,
          candidatesFor students metrics chartWidth chartHeight xMax
            = pre ++ c :: post
          ∧ ∀ c' ∈ pre, d < candDist (x, y) c' := by
    intro d c h
    rcases foldl_consider_spec (x, y) _ none d c h with ⟨hst, -⟩ |
      ⟨pre, post, hsplit, hd, hd20, hpre, hpost⟩
    · exact absurd hst (Option.noConfusion)
    · refine ⟨hd, hd20, ?_, pre, post, hsplit, hpre⟩
      intro c' hc'
      rw [hsplit] at hc'
      rcases List.mem_append.mp hc' with hp | hcp
      · exact le_of_lt (hpre c' hp)
      · rcases List.mem_cons.mp hcp with rfl | hp
        · exact le_of_eq hd
        · by_contra hcon
          exact hpost c' hp ⟨lt_of_not_le hcon, lt_of_le_of_lt (le_of_not_le hcon) hd20⟩
  refine ⟨?_, ?_, ?_, ?_, ?_⟩
  · intro houts
    unfold handleMouseMove
    rw [if_pos houts]
  · intro hin
    unfold handleMouseMove
    rw [if_neg hin, foldl_consider_none_iff]
    constructor
    · intro hall c hc
      exact not_lt.mp (hall c hc)
    · intro hall c hc
      exact not_lt.mpr (hall c hc)
  · intro d c h
    unfold handleMouseMove at h
    split at h
    · exact absurd h (Option.noConfusion)
    · exact hmin d c h
  · intro hin c hc hx hy
    have hdist : candDist (x, y) c = 0 := by
      unfold candDist
      rw [hx, hy]
      simp
    cases hres : handleMouseMove x y chartWidth chartHeight students metrics xMax with
    | none =>
      unfold handleMouseMove at hres
      rw [if_neg hin, foldl_consider_none_iff] at hres
      have h20 := hres c hc
      rw [hdist] at h20
      norm_num at h20
    | some s =>
      rcases s with ⟨d', c'⟩
      have hres' : (candidatesFor students metrics chartWidth chartHeight
          xMax).foldl (considerCandidate (x, y)) none = some (d', c') := by
        unfold handleMouseMove at hres
        rw [if_neg hin] at hres
        exact hres
      have hspec := hmin d' c' hres'
      have hle : d' ≤ 0 := by
        have := hspec.2.2.1 c hc
        rw [hdist] at this
        exact this
      have hge : 0 ≤ d' := by
        rw [hspec.1]
        exact Real.sqrt_nonneg _
      have hzero : d' = 0 := le_antisymm hle hge
      have hsq : (x - c'.x) ^ 2 + (y - c'.y) ^ 2 = 0 := by
        have h0 : candDist (x, y) c' = 0 := by
          rw [← hspec.1, hzero]
        unfold candDist at h0
        exact (Real.sqrt_eq_zero
          (by positivity)).mp h0
      have hx' : c'.x = x := by
        have := (add_eq_zero_iff_of_nonneg (sq_nonneg _) (sq_nonneg _)).mp hsq
        have h1 := pow_eq_zero_iff (n := 2) (by norm_num) |>.mp this.1
        linarith [sub_eq_zero.mp h1]
      have hy' : c'.y = y := by
        have := (add_eq_zero_iff_of_nonneg (sq_nonneg _) (sq_nonneg _)).mp hsq
        have h1 := pow_eq_zero_iff (n := 2) (by norm_num) |>.mp this.2
        linarith [sub_eq_zero.mp h1]
      refine ⟨c', ?_, hx', hy'⟩
      rw [hzero]
  · intro c hc
    unfold candidatesFor at hc
    rcases List.mem_flatMap.mp hc with ⟨s, hs, hc₁⟩
    rcases List.mem_flatMap.mp hc₁ with ⟨m, hm, hc₂⟩
    rcases List.mem_map.mp hc₂ with ⟨p, hp, rfl⟩
    have hp' := List.mem_filter.mp hp
    have hcond := of_decide_eq_true hp'.2
    refine ⟨s, hs, m, hm,
      ⟨p.day, p.value, p.countingTimeMin,
        p.day - seriesMinDay (getDataPoints s.assessments m)⟩, ?_, hcond.1,
      rfl, rfl, rfl, rfl⟩
    unfold visiblePoints
    apply List.mem_filter.mpr
    constructor
    · unfold normalizePoints
      exact List.mem_map.mpr ⟨p, hp'.1, rfl⟩
    · exact decide_eq_true hcond.2

lemma wStudent_points :
    getDataPoints wStudent.assessments Metric.correctPerMinute = [⟨0, 1, 1⟩] := by
  norm_num [getDataPoints, rawDataPoints, wStudent, metricValue,
    List.filterMap_cons]

lemma valueToY_one : valueToY (1 : ℝ) 100 = 50 := by
  rw [valueToY_eq, min_eq_right (by norm_num [yMax]),
    max_eq_right (by norm_num [yMin]), Real.logb_one]
  norm_num

/-- The single candidate produced by `wStudent` at zoom 7 on a 100×100 chart:
day 0, value 1, pixel (0, 50). -/
lemma wCandidate_mem :
    (⟨wStudent, Metric.correctPerMinute, ⟨0, 1, 1⟩, 0, valueToY 1 100⟩ : Candidate)
      ∈ candidatesFor [wStudent] [Metric.correctPerMinute] 100 100 7 := by
  unfold candidatesFor
  apply List.mem_flatMap.mpr
  refine ⟨wStudent, List.mem_singleton_self _, ?_⟩
  apply List.mem_flatMap.mpr
  refine ⟨Metric.correctPerMinute, List.mem_singleton_self _, ?_⟩
  apply List.mem_map.mpr
  refine ⟨⟨0, 1, 1⟩, ?_, ?_⟩
  · apply List.mem_filter.mpr
    constructor
    · rw [wStudent_points]
      exact List.mem_singleton_self _
    · apply decide_eq_true
      rw [wStudent_points]
      norm_num [seriesMinDay, List.min?]
  · rw [wStudent_points]
    norm_num [seriesMinDay, List.min?, Candidate.mk.injEq]

/-- Witness for C8: a pointer at the exact pixel (0, 50) of the plotted point
(day 0, 1 count/min on a 100×100 chart at zoom 7) yields a hit at
distance 0. -/
theorem C8_hit_test_witness :
    ∃ c', handleMouseMove 0 50 100 100 [wStudent] [Metric.correctPerMinute] 7
        = some (0, c')
      ∧ c'.x = 0 ∧ c'.y = 50 := by
  have h := (C8_hit_test 0 50 100 100 [wStudent] [Metric.correctPerMinute] 7).2.2.2.1
  exact h (by norm_num)
    ⟨wStudent, Metric.correctPerMinute, ⟨0, 1, 1⟩, 0, valueToY 1 100⟩
    wCandidate_mem rfl valueToY_one

end SCC

